import Mathlib

/-!
# Verification of the Opteryx Rust compute core

A shallow embedding of the Rust sources of the `compute` extension module
(`src/lib.rs`, `src/opteryx_dialect.rs`, `src/sqloxide.rs`,
`src/temporal_parser.rs`) together with models of the external library
surfaces they delegate to (the `pythonize` interchange codec, the
`sqlparser` parser driver, and the `regex` crate), and proofs of the
specified properties.
-/

namespace Opteryx

/-- Modelled from the spec: the generic structured value produced and
consumed by the AST interchange codec (the `pythonize`/`depythonize`
library, whose code is not part of this repository's sources): an
ordered mapping with string keys, an ordered list, string, integer,
boolean, or null. -/
inductive SV where
  | map (fields : List (String × SV))
  | list (items : List SV)
  | str (s : String)
  | int (n : Int)
  | bool (b : Bool)
  | null

/-- Modelled from the spec: the binary-operator vocabulary of the AST,
a fixed tag set plus the open string-tagged custom extension point used
by the dialect hook (`MyIntegerDivide`, `AtArrow`, and
`Custom "ArrayContainsAll"` are the tags named in `opteryx_dialect.rs`). -/
inductive BinaryOperator where
  | Plus
  | Minus
  | Multiply
  | Divide
  | Gt
  | Lt
  | Eq
  | MyIntegerDivide
  | AtArrow
  | Custom (name : String)
deriving DecidableEq

/-- Modelled from the spec: expression nodes of the AST (the `sqlparser`
crate's `Expr` is external library code); a strict tree with identifier,
literal and binary-operation variants. -/
inductive Expr where
  | Identifier (name : String)
  | Number (value : String)
  | StringLit (value : String)
  | BinaryOp (op : BinaryOperator) (left : Expr) (right : Expr)
deriving DecidableEq

/-- Modelled from the spec: statement nodes of the AST (a closed variant
set; two representative variants are enough to exercise the codec's
variant tags, required fields, and field shapes). -/
inductive Statement where
  | Select (projection : List Expr) (relation : String) (selection : Option Expr)
  | Insert (table : String) (values : List Expr)
deriving DecidableEq

/-- Modelled from the spec: serialization of an operator tag (unit
variants become plain strings, the custom variant an explicitly tagged
mapping, following the externally-tagged convention of the codec). -/
def serializeOperator : BinaryOperator → SV
  | .Plus => .str "Plus"
  | .Minus => .str "Minus"
  | .Multiply => .str "Multiply"
  | .Divide => .str "Divide"
  | .Gt => .str "Gt"
  | .Lt => .str "Lt"
  | .Eq => .str "Eq"
  | .MyIntegerDivide => .str "MyIntegerDivide"
  | .AtArrow => .str "AtArrow"
  | .Custom name => .map [("Custom", .str name)]

/-- Modelled from the spec: deserialization of an operator tag;
rejects unknown variant tags. -/
def deserializeOperator : SV → Except String BinaryOperator
  | .str "Plus" => .ok .Plus
  | .str "Minus" => .ok .Minus
  | .str "Multiply" => .ok .Multiply
  | .str "Divide" => .ok .Divide
  | .str "Gt" => .ok .Gt
  | .str "Lt" => .ok .Lt
  | .str "Eq" => .ok .Eq
  | .str "MyIntegerDivide" => .ok .MyIntegerDivide
  | .str "AtArrow" => .ok .AtArrow
  | .map [("Custom", .str name)] => .ok (.Custom name)
  | _ => .error "unknown operator variant"

/-- Modelled from the spec: serialization of an expression node into an
externally tagged mapping, one fixed shape per variant. -/
def serializeExpr : Expr → SV
  | .Identifier name => .map [("Identifier", .str name)]
  | .Number value => .map [("Number", .str value)]
  | .StringLit value => .map [("StringLit", .str value)]
  | .BinaryOp op left right =>
      .map [("BinaryOp",
        .map [("left", serializeExpr left),
              ("op", serializeOperator op),
              ("right", serializeExpr right)])]

/-- Modelled from the spec: field access in a serialized mapping —
fields are matched by key, not position, so a host-reordered mapping
is read exactly like the canonical one. -/
def lookupField : List (String × SV) → String → Option SV
  | [], _ => none
  | (k, v) :: rest, key => if k = key then some v else lookupField rest key

theorem sizeOf_lookupField {fields : List (String × SV)} {key : String} {v : SV}
    (h : lookupField fields key = some v) : sizeOf v < sizeOf fields := by
  induction fields with
  | nil => simp [lookupField] at h
  | cons kv rest ih =>
      obtain ⟨k, w⟩ := kv
      rw [lookupField] at h
      by_cases hk : k = key
      · rw [if_pos hk] at h
        obtain rfl : w = v := by simpa using h
        simp only [List.cons.sizeOf_spec, Prod.mk.sizeOf_spec]
        omega
      · rw [if_neg hk] at h
        have hlt := ih h
        simp only [List.cons.sizeOf_spec, Prod.mk.sizeOf_spec]
        omega

/-- Modelled from the spec: deserialization of an expression node,
validating the variant tag and the shape of every field; the payload
fields are looked up by key (reordering within the mapping is
irrelevant), and any mapping missing a required field or that is not
a well-formed serialization is rejected. -/
def deserializeExpr : SV → Except String Expr
  | .map [("Identifier", .str name)] => .ok (.Identifier name)
  | .map [("Number", .str value)] => .ok (.Number value)
  | .map [("StringLit", .str value)] => .ok (.StringLit value)
  | .map [("BinaryOp", .map fields)] =>
      match hleft : lookupField fields "left" with
      | none => .error "missing field left"
      | some l =>
          match hop : lookupField fields "op" with
          | none => .error "missing field op"
          | some opv =>
              match hright : lookupField fields "right" with
              | none => .error "missing field right"
              | some r =>
                  match deserializeExpr l, deserializeOperator opv, deserializeExpr r with
                  | .ok le, .ok op, .ok re => .ok (.BinaryOp op le re)
                  | .error msg, _, _ => .error msg
                  | _, .error msg, _ => .error msg
                  | _, _, .error msg => .error msg
  | _ => .error "unknown or malformed expression node"
termination_by v => sizeOf v
decreasing_by
  all_goals
    first
    | (have hlt := sizeOf_lookupField hleft
       simp only [SV.map.sizeOf_spec, List.cons.sizeOf_spec, Prod.mk.sizeOf_spec,
         List.nil.sizeOf_spec]
       omega)
    | (have hlt := sizeOf_lookupField hright
       simp only [SV.map.sizeOf_spec, List.cons.sizeOf_spec, Prod.mk.sizeOf_spec,
         List.nil.sizeOf_spec]
       omega)

/-- Modelled from the spec: an optional expression serializes to null
when absent. -/
def serializeOptExpr : Option Expr → SV
  | none => .null
  | some e => serializeExpr e

/-- Modelled from the spec: deserialization of an optional expression. -/
def deserializeOptExpr : SV → Except String (Option Expr)
  | .null => .ok none
  | v => (deserializeExpr v).map some

/-- Modelled from the spec: element-wise deserialization of a sequence
of expressions, failing at the first malformed element. -/
def deserializeExprList : List SV → Except String (List Expr)
  | [] => .ok []
  | v :: rest =>
      match deserializeExpr v, deserializeExprList rest with
      | .ok e, .ok es => .ok (e :: es)
      | .error msg, _ => .error msg
      | _, .error msg => .error msg

/-- Modelled from the spec: serialization of a statement node. -/
def serializeStatement : Statement → SV
  | .Select projection relation selection =>
      .map [("Select",
        .map [("projection", .list (projection.map serializeExpr)),
              ("from", .str relation),
              ("selection", serializeOptExpr selection)])]
  | .Insert table values =>
      .map [("Insert",
        .map [("table", .str table),
              ("values", .list (values.map serializeExpr))])]

/-- Modelled from the spec: deserialization of a statement node; the
payload fields are looked up by key (reordering within the mapping is
irrelevant), and a mapping missing a required field, a field of the
wrong shape, or an unknown variant tag is rejected. -/
def deserializeStatement : SV → Except String Statement
  | .map [("Select", .map fields)] =>
      match lookupField fields "projection" with
      | none => .error "missing field projection"
      | some (.list ps) =>
          match lookupField fields "from" with
          | none => .error "missing field from"
          | some (.str relation) =>
              match lookupField fields "selection" with
              | none => .error "missing field selection"
              | some sel =>
                  match deserializeExprList ps, deserializeOptExpr sel with
                  | .ok projection, .ok selection =>
                      .ok (.Select projection relation selection)
                  | .error msg, _ => .error msg
                  | _, .error msg => .error msg
          | some _ => .error "field from has the wrong shape"
      | some _ => .error "field projection has the wrong shape"
  | .map [("Insert", .map fields)] =>
      match lookupField fields "table" with
      | none => .error "missing field table"
      | some (.str table) =>
          match lookupField fields "values" with
          | none => .error "missing field values"
          | some (.list vs) =>
              match deserializeExprList vs with
              | .ok values => .ok (.Insert table values)
              | .error msg => .error msg
          | some _ => .error "field values has the wrong shape"
      | some _ => .error "field table has the wrong shape"
  | _ => .error "unknown or malformed statement node"

/-- Modelled from the spec: element-wise deserialization of the
statement list. -/
def deserializeStatementList : List SV → Except String (List Statement)
  | [] => .ok []
  | v :: rest =>
      match deserializeStatement v, deserializeStatementList rest with
      | .ok s, .ok ss => .ok (s :: ss)
      | .error msg, _ => .error msg
      | _, .error msg => .error msg

/-- Modelled from the spec: `pythonize` — total serialization of a
statement list into a generic structured value. -/
def pythonize (stmts : List Statement) : SV :=
  .list (stmts.map serializeStatement)

/-- Modelled from the spec: `depythonize` — validating deserialization
of a structured value back into a statement list. -/
def depythonize : SV → Except String (List Statement)
  | .list items => deserializeStatementList items
  | _ => .error "expected a list of statements"

theorem deserializeOperator_serializeOperator (op : BinaryOperator) :
    deserializeOperator (serializeOperator op) = .ok op := by
  cases op <;> rfl

theorem deserializeExpr_binop_eval (l opv r : SV) :
    deserializeExpr (SV.map [("BinaryOp",
        SV.map [("left", l), ("op", opv), ("right", r)])])
      = match deserializeExpr l, deserializeOperator opv, deserializeExpr r with
        | .ok le, .ok op, .ok re => .ok (.BinaryOp op le re)
        | .error msg, _, _ => .error msg
        | _, .error msg, _ => .error msg
        | _, _, .error msg => .error msg := by
  simp only [deserializeExpr]
  rfl

theorem deserializeExpr_serializeExpr (e : Expr) :
    deserializeExpr (serializeExpr e) = .ok e := by
  induction e with
  | Identifier name => simp [serializeExpr, deserializeExpr]
  | Number value => simp [serializeExpr, deserializeExpr]
  | StringLit value => simp [serializeExpr, deserializeExpr]
  | BinaryOp op left right ihl ihr =>
      rw [serializeExpr, deserializeExpr_binop_eval, ihl, ihr,
        deserializeOperator_serializeOperator]

theorem deserializeExprList_map (es : List Expr) :
    deserializeExprList (es.map serializeExpr) = .ok es := by
  induction es with
  | nil => rfl
  | cons e rest ih =>
      simp [deserializeExprList, deserializeExpr_serializeExpr, ih]

theorem serializeExpr_isMap (e : Expr) : ∃ fs, serializeExpr e = SV.map fs := by
  cases e <;> exact ⟨_, rfl⟩

theorem deserializeOptExpr_serializeOptExpr (sel : Option Expr) :
    deserializeOptExpr (serializeOptExpr sel) = .ok sel := by
  cases sel with
  | none => rfl
  | some e =>
      obtain ⟨fs, hfs⟩ := serializeExpr_isMap e
      show deserializeOptExpr (serializeExpr e) = .ok (some e)
      rw [hfs]
      show (deserializeExpr (SV.map fs)).map some = .ok (some e)
      rw [← hfs, deserializeExpr_serializeExpr]
      rfl

theorem deserializeStatement_select_eval (ps : List SV) (relation : String) (sel : SV) :
    deserializeStatement (SV.map [("Select",
        SV.map [("projection", SV.list ps), ("from", SV.str relation),
                ("selection", sel)])])
      = match deserializeExprList ps, deserializeOptExpr sel with
        | .ok projection, .ok selection => .ok (.Select projection relation selection)
        | .error msg, _ => .error msg
        | _, .error msg => .error msg := rfl

theorem deserializeStatement_insert_eval (table : String) (vs : List SV) :
    deserializeStatement (SV.map [("Insert",
        SV.map [("table", SV.str table), ("values", SV.list vs)])])
      = match deserializeExprList vs with
        | .ok values => .ok (.Insert table values)
        | .error msg => .error msg := rfl

theorem deserializeStatement_serializeStatement (s : Statement) :
    deserializeStatement (serializeStatement s) = .ok s := by
  cases s with
  | Select projection relation selection =>
      rw [serializeStatement, deserializeStatement_select_eval,
        deserializeExprList_map, deserializeOptExpr_serializeOptExpr]
  | Insert table values =>
      rw [serializeStatement, deserializeStatement_insert_eval,
        deserializeExprList_map]

theorem deserializeStatementList_map (ss : List Statement) :
    deserializeStatementList (ss.map serializeStatement) = .ok ss := by
  induction ss with
  | nil => rfl
  | cons s rest ih =>
      simp [deserializeStatementList, deserializeStatement_serializeStatement, ih]

/-- C1: for every list of statement AST nodes, serializing with the
interchange codec and then deserializing the resulting generic
structured value yields a statement list structurally equal to the
original: `deserialize(serialize(ast)) = ast`. -/
theorem interchange_roundtrip (stmts : List Statement) :
    depythonize (pythonize stmts) = .ok stmts := by
  simp [pythonize, depythonize, deserializeStatementList_map]

/-- Modelled from the spec: textual rendering of an operator tag (the
`Display` implementation lives in the external `sqlparser` crate). -/
def renderOperator : BinaryOperator → String
  | .Plus => "+"
  | .Minus => "-"
  | .Multiply => "*"
  | .Divide => "/"
  | .Gt => ">"
  | .Lt => "<"
  | .Eq => "="
  | .MyIntegerDivide => "DIV"
  | .AtArrow => "@>"
  | .Custom name => name

/-- Modelled from the spec: deterministic depth-first text rendering of
an expression node. -/
def renderExpr : Expr → String
  | .Identifier name => name
  | .Number value => value
  | .StringLit value => value
  | .BinaryOp op left right =>
      renderExpr left ++ " " ++ renderOperator op ++ " " ++ renderExpr right

/-- Modelled from the spec: deterministic text rendering of a statement
node (the Text Renderer component; `Statement`'s `Display` is external
library code). -/
def renderStatement : Statement → String
  | .Select projection relation selection =>
      "SELECT " ++ String.intercalate ", " (projection.map renderExpr)
        ++ " FROM " ++ relation
        ++ (match selection with
            | none => ""
            | some e => " WHERE " ++ renderExpr e)
  | .Insert table values =>
      "INSERT INTO " ++ table ++ " VALUES "
        ++ String.intercalate ", " (values.map renderExpr)

/-- `restore_ast` from `src/sqloxide.rs`: deserialize the structured
value with `depythonize`; on failure wrap the codec message in the
interchange error, on success render each statement to text. -/
def restore_ast (ast : SV) : Except String (List String) :=
  match depythonize ast with
  | .error e => .error (String.append "Query serialization failed.\n\t" e)
  | .ok statements => .ok (statements.map renderStatement)

/-- C8: `restore_ast` fails with the interchange error exactly when the
input structured value is not a well-formed serialization of a
statement list (the validating deserializer rejects it), and on
well-formed input returns exactly one rendered SQL string per statement
node, in the same order as the input nodes. -/
theorem restore_ast_spec (v : SV) :
    (∀ e, depythonize v = .error e →
        restore_ast v = .error (String.append "Query serialization failed.\n\t" e)) ∧
    (∀ stmts, depythonize v = .ok stmts →
        restore_ast v = .ok (stmts.map renderStatement) ∧
        (stmts.map renderStatement).length = stmts.length ∧
        ∀ i : Nat, (stmts.map renderStatement)[i]? = stmts[i]?.map renderStatement) := by
  constructor
  · intro e he
    simp [restore_ast, he]
  · intro stmts hs
    refine ⟨by simp [restore_ast, hs], by simp, ?_⟩
    intro i
    simp [List.getElem?_map]

/-- Witness for C8: a structured value whose select mapping is missing
its required projection field is rejected with the interchange error
identifying the field; the serialization of a one-statement list
restores to exactly one rendered string; and a host-reordered but
key-complete select mapping restores to the same string, since fields
are matched by key, not position. -/
theorem restore_ast_spec_witness :
    restore_ast (SV.list [SV.map [("Select", SV.map [])]])
        = .error (String.append "Query serialization failed.\n\t"
            "missing field projection") ∧
    restore_ast (pythonize [Statement.Select [Expr.Identifier "a"] "t" none])
        = .ok ["SELECT a FROM t"] ∧
    restore_ast (SV.list [SV.map [("Select",
        SV.map [("selection", SV.null), ("from", SV.str "t"),
                ("projection", SV.list [SV.map [("Identifier", SV.str "a")]])])]])
        = .ok ["SELECT a FROM t"] := by
  have hde : deserializeExpr (SV.map [("Identifier", SV.str "a")])
      = .ok (Expr.Identifier "a") := by
    simp [deserializeExpr]
  refine ⟨?_, ?_, ?_⟩
  · exact (restore_ast_spec (SV.list [SV.map [("Select", SV.map [])]])).1
      "missing field projection" rfl
  · have h := (restore_ast_spec
      (pythonize [Statement.Select [Expr.Identifier "a"] "t" none])).2
      [Statement.Select [Expr.Identifier "a"] "t" none]
      (by
        show deserializeStatementList
          ([Statement.Select [Expr.Identifier "a"] "t" none].map serializeStatement) = _
        rw [deserializeStatementList_map])
    exact h.1.trans (by rfl)
  · have h := (restore_ast_spec (SV.list [SV.map [("Select",
        SV.map [("selection", SV.null), ("from", SV.str "t"),
                ("projection", SV.list [SV.map [("Identifier", SV.str "a")]])])]])).2
      [Statement.Select [Expr.Identifier "a"] "t" none]
      (by
        have hp : lookupField [("selection", SV.null), ("from", SV.str "t"),
            ("projection", SV.list [SV.map [("Identifier", SV.str "a")]])] "projection"
            = some (SV.list [SV.map [("Identifier", SV.str "a")]]) := rfl
        have hf : lookupField [("selection", SV.null), ("from", SV.str "t"),
            ("projection", SV.list [SV.map [("Identifier", SV.str "a")]])] "from"
            = some (SV.str "t") := rfl
        have hs : lookupField [("selection", SV.null), ("from", SV.str "t"),
            ("projection", SV.list [SV.map [("Identifier", SV.str "a")]])] "selection"
            = some SV.null := rfl
        simp only [depythonize, deserializeStatementList, deserializeStatement,
          hp, hf, hs, deserializeExprList, deserializeOptExpr, hde])
    exact h.1.trans (by rfl)

/-- `parse_sql` from `src/lib.rs`: the specialized entry point.  The
parser driver (`Parser::parse_sql` applied to the fixed
`OpteryxDialect` capability set) is abstracted as the `engine`
argument; the `_dialect` string is accepted but never consulted, the
statements are serialized with `pythonize`, and a parser failure is
wrapped in the query-parsing error. -/
def lib_parse_sql (engine : String → Except String (List Statement))
    (sql : String) (_dialect : String) : Except String SV :=
  match engine sql with
  | .ok statements => .ok (pythonize statements)
  | .error e => .error (String.append "Query parsing failed.\n\t" e)

/-- C7: the specialized parse entry point ignores its dialect argument
entirely: for every parser engine, SQL string and pair of dialect
names, the two results are identical. -/
theorem lib_parse_sql_ignores_dialect
    (engine : String → Except String (List Statement))
    (sql d1 d2 : String) :
    lib_parse_sql engine sql d1 = lib_parse_sql engine sql d2 := rfl

/-- `TemporalFilter` from `src/temporal_parser.rs`. -/
structure TemporalFilter where
  relation : String
  temporal_clause : String
deriving DecidableEq

/-- `TemporalExtractionResult` from `src/temporal_parser.rs`. -/
structure TemporalExtractionResult where
  clean_sql : String
  filters : List TemporalFilter

/-- `extract_temporal_for_clauses` from `src/temporal_parser.rs`: the
placeholder returns the SQL unchanged and no filters. -/
def extract_temporal_for_clauses (sql : String) : TemporalExtractionResult :=
  { clean_sql := sql, filters := [] }

/-- C9: for every input SQL string, `extract_temporal_for_clauses`
returns the input unchanged as `clean_sql` and an empty filter list. -/
theorem extract_temporal_identity (sql : String) :
    (extract_temporal_for_clauses sql).clean_sql = sql ∧
    (extract_temporal_for_clauses sql).filters = [] :=
  ⟨rfl, rfl⟩

/-- Tokens of the `sqlparser` tokenizer that the custom-infix hook in
`src/opteryx_dialect.rs` inspects: keyword/identifier words, the
two-character array-contains operator `@>` (`Token::AtArrow`), the
greater-than sign (`Token::Gt`), and number literals. -/
inductive Token where
  | Word (s : String)
  | AtArrow
  | Gt
  | Num (s : String)
deriving DecidableEq

/-- `Parser::parse_keyword`: if the next token is the given keyword
word it is consumed and the call reports true; otherwise the token
stream is left untouched. -/
def parse_keyword (kw : String) : List Token → Bool × List Token
  | Token.Word s :: rest =>
      if s = kw then (true, rest) else (false, Token.Word s :: rest)
  | ts => (false, ts)

/-- `Parser::consume_token`: if the next token equals the given token
it is consumed and the call reports true; otherwise nothing changes. -/
def consume_token (t : Token) : List Token → Bool × List Token
  | u :: rest => if u = t then (true, rest) else (false, u :: rest)
  | [] => (false, [])

/-- Outcome of running a piece of Rust code that may panic: either the
process aborts with a panic message (as `Result::unwrap` does on an
`Err` value) or a value is produced. -/
inductive RustOutcome (α : Type) where
  | panicked (msg : String)
  | value (v : α)
deriving DecidableEq

/-- `OpteryxDialect::parse_infix` from `src/opteryx_dialect.rs`.  The
recursive sub-expression parser `Parser::parse_expr` is abstracted as
the `parseExpr` argument (returning the parsed right-hand side and the
remaining tokens, or a parser error).  The hook first tries the DIV
keyword, then the `@>` token with a one-token lookahead for `>` to
recognize `@>>`; in each arm the right-hand side is obtained by
`parse_expr().unwrap()`, so a failing right-hand parse panics. -/
def parse_infix
    (parseExpr : List Token → Except String (Expr × List Token))
    (ts : List Token) (expr : Expr) :
    RustOutcome (Option (Except String Expr) × List Token) :=
  match parse_keyword "DIV" ts with
  | (true, ts1) =>
      match parseExpr ts1 with
      | .ok (rhs, ts2) =>
          .value (some (.ok (Expr.BinaryOp .MyIntegerDivide expr rhs)), ts2)
      | .error _ => .panicked "called Result unwrap on an Err value"
  | (false, _) =>
      match consume_token .AtArrow ts with
      | (true, ts1) =>
          match consume_token .Gt ts1 with
          | (true, ts2) =>
              match parseExpr ts2 with
              | .ok (rhs, ts3) =>
                  .value (some (.ok (Expr.BinaryOp
                    (.Custom "ArrayContainsAll") expr rhs)), ts3)
              | .error _ => .panicked "called Result unwrap on an Err value"
          | (false, _) =>
              match parseExpr ts1 with
              | .ok (rhs, ts3) =>
                  .value (some (.ok (Expr.BinaryOp .AtArrow expr rhs)), ts3)
              | .error _ => .panicked "called Result unwrap on an Err value"
      | (false, _) => .value (none, ts)

/-- C3: invoked where the next tokens are `@>` immediately followed by
`>`, the hook consumes both and returns a single binary operation
tagged with the custom ArrayContainsAll operator (maximal munch); when
`@>` is not followed by `>` (a different token or end of input), it
returns a binary operation with the plain array-contains operator. -/
theorem at_arrow_maximal_munch
    (parseExpr : List Token → Except String (Expr × List Token))
    (expr : Expr) (rest : List Token) :
    (∀ rhs ts2, parseExpr rest = .ok (rhs, ts2) →
        parse_infix parseExpr (Token.AtArrow :: Token.Gt :: rest) expr
          = .value (some (.ok (Expr.BinaryOp
              (.Custom "ArrayContainsAll") expr rhs)), ts2)) ∧
    (∀ t, t ≠ Token.Gt → ∀ rhs ts2, parseExpr (t :: rest) = .ok (rhs, ts2) →
        parse_infix parseExpr (Token.AtArrow :: t :: rest) expr
          = .value (some (.ok (Expr.BinaryOp .AtArrow expr rhs)), ts2)) ∧
    (∀ rhs ts2, parseExpr [] = .ok (rhs, ts2) →
        parse_infix parseExpr [Token.AtArrow] expr
          = .value (some (.ok (Expr.BinaryOp .AtArrow expr rhs)), ts2)) := by
  refine ⟨?_, ?_, ?_⟩
  · intro rhs ts2 h
    simp [ parse_infix, parse_keyword, consume_token, h]
  · intro t ht rhs ts2 h
    simp [ parse_infix, parse_keyword, consume_token, ht, h]
  · intro rhs ts2 h
    simp [ parse_infix, parse_keyword, consume_token, h]

/-- Witness for C3: with a sub-expression parser that returns the
number 3, `a @> > 3` parses as one ArrayContainsAll operation and
`a @> 3` (a number after `@>`) as a plain array-contains operation. -/
theorem at_arrow_maximal_munch_witness :
    parse_infix (fun ts => .ok (Expr.Number "3", ts))
        [Token.AtArrow, Token.Gt] (Expr.Identifier "a")
      = .value (some (.ok (Expr.BinaryOp
          (.Custom "ArrayContainsAll") (Expr.Identifier "a") (Expr.Number "3"))), []) ∧
    parse_infix (fun ts => .ok (Expr.Number "3", ts))
        [Token.AtArrow, Token.Num "3"] (Expr.Identifier "a")
      = .value (some (.ok (Expr.BinaryOp .AtArrow
          (Expr.Identifier "a") (Expr.Number "3"))), [Token.Num "3"]) := by
  constructor
  · exact (at_arrow_maximal_munch (fun ts => .ok (Expr.Number "3", ts))
      (Expr.Identifier "a") []).1 (Expr.Number "3") [] rfl
  · exact (at_arrow_maximal_munch (fun ts => .ok (Expr.Number "3", ts))
      (Expr.Identifier "a") []).2.1 (Token.Num "3") (by decide)
      (Expr.Number "3") [Token.Num "3"] rfl

/-- C2 (divergence): when the hook has recognized the DIV keyword, or
the `@>`-prefixed array operators, and the right-hand operand fails to
parse, the `unwrap` call panics — the process aborts instead of
returning the parser error to the caller. -/
theorem div_rhs_failure_panics
    (parseExpr : List Token → Except String (Expr × List Token))
    (expr : Expr) (rest : List Token) (e : String)
    (h : parseExpr rest = .error e) :
    parse_infix parseExpr (Token.Word "DIV" :: rest) expr
        = .panicked "called Result unwrap on an Err value" ∧
    parse_infix parseExpr (Token.AtArrow :: Token.Gt :: rest) expr
        = .panicked "called Result unwrap on an Err value" := by
  constructor
  · simp [ parse_infix, parse_keyword, h]
  · simp [ parse_infix, parse_keyword, consume_token, h]

/-- Witness for C2: with a sub-expression parser that fails at end of
input (as on the SQL text `SELECT 1 DIV`), the hook panics. -/
theorem div_rhs_failure_panics_witness :
    parse_infix (fun _ => .error "Expected an expression, found EOF")
        [Token.Word "DIV"] (Expr.Number "1")
      = .panicked "called Result unwrap on an Err value" :=
  (div_rhs_failure_panics (fun _ => .error "Expected an expression, found EOF")
    (Expr.Number "1") [] "Expected an expression, found EOF" rfl).1

/-- `convert_python_to_rust_backrefs` from `src/lib.rs`, over the
character list of the replacement template: a backslash is emitted as
a dollar sign when the peeked next character is an ASCII digit and as
itself otherwise (the peeked character is not consumed); every other
character, and a trailing backslash, is emitted verbatim. -/
def convert_python_to_rust_backrefs : List Char → List Char
  | [] => []
  | c :: rest =>
      if c = '\\' then
        match rest with
        | [] => ['\\']
        | d :: _ =>
            (if d.isDigit then '$' else '\\') :: convert_python_to_rust_backrefs rest
      else
        c :: convert_python_to_rust_backrefs rest

/-- C5: the translation is the position-wise map that rewrites every
backslash immediately followed by an ASCII digit into `$` (the digit
itself is kept at its own position), keeps a backslash followed by a
non-digit character, keeps a trailing backslash, and copies every
other character verbatim; in particular `\1` becomes `$1` and `\\` is
preserved. -/
theorem backref_translation_charwise (s : List Char) :
    (convert_python_to_rust_backrefs s).length = s.length ∧
    ∀ (i : Nat) (c : Char), s[i]? = some c →
      (convert_python_to_rust_backrefs s)[i]?
        = some (if c = '\\' ∧ (s[i + 1]?.any Char.isDigit) = true then '$' else c) := by
  induction s with
  | nil => exact ⟨rfl, by intro i c h; simp at h⟩
  | cons a rest ih =>
      by_cases ha : a = '\\'
      · subst ha
        cases rest with
        | nil =>
            refine ⟨rfl, ?_⟩
            intro i c h
            match i with
            | 0 =>
                simp only [List.getElem?_cons_zero, Option.some.injEq] at h
                subst h
                simp [convert_python_to_rust_backrefs]
            | j + 1 => simp at h
        | cons d tail =>
            have hconv : convert_python_to_rust_backrefs ('\\' :: d :: tail)
                = (if d.isDigit then '$' else '\\')
                    :: convert_python_to_rust_backrefs (d :: tail) := by
              simp [convert_python_to_rust_backrefs]
            refine ⟨?_, ?_⟩
            · rw [hconv]
              simp [ih.1]
            · intro i c h
              match i with
              | 0 =>
                  simp only [List.getElem?_cons_zero, Option.some.injEq] at h
                  subst h
                  rw [hconv]
                  simp
              | j + 1 =>
                  rw [hconv]
                  simp only [List.getElem?_cons_succ] at h ⊢
                  simpa using ih.2 j c h
      · have hconv : convert_python_to_rust_backrefs (a :: rest)
            = a :: convert_python_to_rust_backrefs rest := by
          simp [convert_python_to_rust_backrefs, ha]
        refine ⟨by rw [hconv]; simp [ih.1], ?_⟩
        intro i c h
        match i with
        | 0 =>
            simp only [List.getElem?_cons_zero, Option.some.injEq] at h
            subst h
            rw [hconv]
            simp [ha]
        | j + 1 =>
            rw [hconv]
            simp only [List.getElem?_cons_succ] at h ⊢
            exact ih.2 j c h

/-- Witness for C5: on the template `\1x\\` the translation yields
`$1x\\`; the backreference becomes a dollar form with the digit kept,
the literal character is copied, and the double backslash survives;
position 0 follows the charwise rule. -/
theorem backref_translation_charwise_witness :
    convert_python_to_rust_backrefs ['\\', '1', 'x', '\\', '\\']
        = ['$', '1', 'x', '\\', '\\'] ∧
    (convert_python_to_rust_backrefs ['\\', '1', 'x', '\\', '\\'])[0]?
        = some (if ('\\' : Char) = '\\'
              ∧ ((['\\', '1', 'x', '\\', '\\'] : List Char)[1]?.any Char.isDigit) = true
            then '$' else '\\') := by
  constructor
  · rfl
  · exact (backref_translation_charwise ['\\', '1', 'x', '\\', '\\']).2 0 '\\' rfl

/-- A Python value as seen by `regex_replace_rust`: a text string or a
byte sequence (bytes as natural numbers). -/
inductive PyVal where
  | str (s : String)
  | bytes (b : List Nat)
deriving DecidableEq

/-- Modelled from the `regex` crate: a compiled text regex, abstracted
by its match test and its `replace_all` substitution. -/
structure StrRegex where
  isMatch : String → Bool
  replaceAll : String → String → String

/-- Modelled from the `regex` crate: a compiled byte regex. -/
structure BytesRegex where
  isMatch : List Nat → Bool
  replaceAll : List Nat → List Nat → List Nat

/-- Modelled from the `regex` and `std` libraries used by
`src/lib.rs`: pattern compilation (`Regex::new`, returning nothing on
an invalid pattern), byte-regex compilation, and UTF-8 decoding and
encoding (`str::from_utf8`, `str::as_bytes`). -/
structure RegexEnv where
  compileStr : String → Option StrRegex
  compileBytes : String → Option BytesRegex
  utf8Decode : List Nat → Option String
  utf8Encode : String → List Nat

/-- Documented contract of the libraries behind a `RegexEnv`:
`replace_all` returns its haystack unchanged when the pattern does not
match it, and encoding a successfully decoded byte sequence gives the
original bytes back. -/
def RegexEnv.lawful (env : RegexEnv) : Prop :=
  (∀ p re, env.compileStr p = some re →
      ∀ h r, re.isMatch h = false → re.replaceAll h r = h) ∧
  (∀ p re, env.compileBytes p = some re →
      ∀ h r, re.isMatch h = false → re.replaceAll h r = h) ∧
  (∀ b s, env.utf8Decode b = some s → env.utf8Encode s = b)

/-- The bytes-mode item loop of `regex_replace_rust`: absent items stay
absent, a text item fails the byte extraction, and a byte item is
replaced and pushed as bytes. -/
def processBytesItems (re : BytesRegex) (rep : List Nat) :
    List (Option PyVal) → Except String (List (Option PyVal))
  | [] => .ok []
  | none :: rest =>
      match processBytesItems re rep rest with
      | .ok out => .ok (none :: out)
      | .error e => .error e
  | some (.str _) :: _ => .error "argument must be a bytes-like object"
  | some (.bytes b) :: rest =>
      match processBytesItems re rep rest with
      | .ok out => .ok (some (.bytes (re.replaceAll b rep)) :: out)
      | .error e => .error e

/-- The string-mode item loop of `regex_replace_rust`: absent items
stay absent, a byte item is UTF-8 decoded (or the call fails), and
every present result is pushed as bytes of the replaced text. -/
def processStrItems (env : RegexEnv) (re : StrRegex) (rep : String) :
    List (Option PyVal) → Except String (List (Option PyVal))
  | [] => .ok []
  | none :: rest =>
      match processStrItems env re rep rest with
      | .ok out => .ok (none :: out)
      | .error e => .error e
  | some (.bytes b) :: rest =>
      match env.utf8Decode b with
      | none => .error "Invalid UTF-8"
      | some s =>
          match processStrItems env re rep rest with
          | .ok out => .ok (some (.bytes (env.utf8Encode (re.replaceAll s rep))) :: out)
          | .error e => .error e
  | some (.str s) :: rest =>
      match processStrItems env re rep rest with
      | .ok out => .ok (some (.bytes (env.utf8Encode (re.replaceAll s rep))) :: out)
      | .error e => .error e

/-- Bytes-mode replacement resolution in `regex_replace_rust`: a bytes
replacement must be valid UTF-8; a string replacement is used as is. -/
def resolveBytesReplacement (env : RegexEnv) : PyVal → Except String String
  | .bytes rb =>
      match env.utf8Decode rb with
      | some s => .ok s
      | none => .error "Invalid UTF-8 in replacement"
  | .str s => .ok s

/-- `regex_replace_rust` from `src/lib.rs`, with the regex library and
UTF-8 codecs abstracted as `env`.  The mode is chosen by whether the
pattern is a bytes value; the replacement template is resolved and its
backreferences converted, the pattern is compiled once, and only then
is the item list processed. -/
def regex_replace_rust (env : RegexEnv) (data : List (Option PyVal))
    (pattern replacement : PyVal) : Except String (List (Option PyVal)) :=
  match pattern with
  | .bytes pb =>
      match resolveBytesReplacement env replacement with
      | .error e => .error e
      | .ok repStr =>
          let rustRep := String.mk (convert_python_to_rust_backrefs repStr.data)
          match env.utf8Decode pb with
          | none => .error "Invalid UTF-8 in pattern"
          | some ps =>
              match env.compileBytes ps with
              | none => .error "Invalid regex pattern"
              | some re => processBytesItems re (env.utf8Encode rustRep) data
  | .str ps =>
      match replacement with
      | .bytes _ => .error "Replacement must be a string"
      | .str rs =>
          let rustRep := String.mk (convert_python_to_rust_backrefs rs.data)
          match env.compileStr ps with
          | none => .error "Invalid regex pattern"
          | some re => processStrItems env re rustRep data

theorem processBytesItems_spec (re : BytesRegex) (rep : List Nat)
    (data : List (Option PyVal)) :
    ∀ out, processBytesItems re rep data = .ok out →
      out.length = data.length ∧
      (∀ i : Nat, data[i]? = some none → out[i]? = some none) ∧
      (∀ (i : Nat) (b : List Nat), data[i]? = some (some (PyVal.bytes b)) →
        out[i]? = some (some (PyVal.bytes (re.replaceAll b rep)))) := by
  induction data with
  | nil =>
      intro out h
      simp only [processBytesItems, Except.ok.injEq] at h
      subst h
      exact ⟨rfl, by intro i hi; simp at hi, by intro i b hi; simp at hi⟩
  | cons hd rest ih =>
      intro out h
      match hd with
      | none =>
          rw [processBytesItems] at h
          cases hrec : processBytesItems re rep rest with
          | error e => rw [hrec] at h; exact absurd h (by simp)
          | ok out1 =>
              rw [hrec] at h
              simp only [Except.ok.injEq] at h
              subst h
              obtain ⟨hlen, hnone, hbytes⟩ := ih out1 hrec
              refine ⟨by simp [hlen], ?_, ?_⟩
              · intro i hi
                match i with
                | 0 => simp
                | j + 1 =>
                    simp only [List.getElem?_cons_succ] at hi ⊢
                    exact hnone j hi
              · intro i b hi
                match i with
                | 0 => simp at hi
                | j + 1 =>
                    simp only [List.getElem?_cons_succ] at hi ⊢
                    exact hbytes j b hi
      | some (.str s) =>
          rw [processBytesItems] at h
          exact absurd h (by simp)
      | some (.bytes b0) =>
          rw [processBytesItems] at h
          cases hrec : processBytesItems re rep rest with
          | error e => rw [hrec] at h; exact absurd h (by simp)
          | ok out1 =>
              rw [hrec] at h
              simp only [Except.ok.injEq] at h
              subst h
              obtain ⟨hlen, hnone, hbytes⟩ := ih out1 hrec
              refine ⟨by simp [hlen], ?_, ?_⟩
              · intro i hi
                match i with
                | 0 => simp at hi
                | j + 1 =>
                    simp only [List.getElem?_cons_succ] at hi ⊢
                    exact hnone j hi
              · intro i b hi
                match i with
                | 0 =>
                    simp only [List.getElem?_cons_zero, Option.some.injEq,
                      PyVal.bytes.injEq] at hi
                    subst hi
                    simp
                | j + 1 =>
                    simp only [List.getElem?_cons_succ] at hi ⊢
                    exact hbytes j b hi

theorem processStrItems_spec (env : RegexEnv) (re : StrRegex) (rep : String)
    (data : List (Option PyVal)) :
    ∀ out, processStrItems env re rep data = .ok out →
      out.length = data.length ∧
      (∀ i : Nat, data[i]? = some none → out[i]? = some none) ∧
      (∀ (i : Nat) (s : String), data[i]? = some (some (PyVal.str s)) →
        out[i]? = some (some (PyVal.bytes (env.utf8Encode (re.replaceAll s rep))))) ∧
      (∀ (i : Nat) (b : List Nat), data[i]? = some (some (PyVal.bytes b)) →
        ∃ s, env.utf8Decode b = some s ∧
          out[i]? = some (some (PyVal.bytes (env.utf8Encode (re.replaceAll s rep))))) ∧
      (∀ (i : Nat) (v : PyVal), out[i]? = some (some v) → ∃ b, v = PyVal.bytes b) := by
  induction data with
  | nil =>
      intro out h
      simp only [processStrItems, Except.ok.injEq] at h
      subst h
      refine ⟨rfl, by intro i hi; simp at hi, by intro i s hi; simp at hi,
        by intro i b hi; simp at hi, by intro i v hi; simp at hi⟩
  | cons hd rest ih =>
      intro out h
      match hd with
      | none =>
          rw [processStrItems] at h
          cases hrec : processStrItems env re rep rest with
          | error e => rw [hrec] at h; exact absurd h (by simp)
          | ok out1 =>
              rw [hrec] at h
              simp only [Except.ok.injEq] at h
              subst h
              obtain ⟨hlen, hnone, hstr, hbytes, hall⟩ := ih out1 hrec
              refine ⟨by simp [hlen], ?_, ?_, ?_, ?_⟩
              · intro i hi
                match i with
                | 0 => simp
                | j + 1 =>
                    simp only [List.getElem?_cons_succ] at hi ⊢
                    exact hnone j hi
              · intro i s hi
                match i with
                | 0 => simp at hi
                | j + 1 =>
                    simp only [List.getElem?_cons_succ] at hi ⊢
                    exact hstr j s hi
              · intro i b hi
                match i with
                | 0 => simp at hi
                | j + 1 =>
                    simp only [List.getElem?_cons_succ] at hi ⊢
                    exact hbytes j b hi
              · intro i v hi
                match i with
                | 0 => simp at hi
                | j + 1 =>
                    simp only [List.getElem?_cons_succ] at hi
                    exact hall j v hi
      | some (.str s0) =>
          rw [processStrItems] at h
          cases hrec : processStrItems env re rep rest with
          | error e => rw [hrec] at h; exact absurd h (by simp)
          | ok out1 =>
              rw [hrec] at h
              simp only [Except.ok.injEq] at h
              subst h
              obtain ⟨hlen, hnone, hstr, hbytes, hall⟩ := ih out1 hrec
              refine ⟨by simp [hlen], ?_, ?_, ?_, ?_⟩
              · intro i hi
                match i with
                | 0 => simp at hi
                | j + 1 =>
                    simp only [List.getElem?_cons_succ] at hi ⊢
                    exact hnone j hi
              · intro i s hi
                match i with
                | 0 =>
                    simp only [List.getElem?_cons_zero, Option.some.injEq,
                      PyVal.str.injEq] at hi
                    subst hi
                    simp
                | j + 1 =>
                    simp only [List.getElem?_cons_succ] at hi ⊢
                    exact hstr j s hi
              · intro i b hi
                match i with
                | 0 => simp at hi
                | j + 1 =>
                    simp only [List.getElem?_cons_succ] at hi ⊢
                    exact hbytes j b hi
              · intro i v hi
                match i with
                | 0 =>
                    simp only [List.getElem?_cons_zero, Option.some.injEq] at hi
                    exact ⟨_, hi.symm⟩
                | j + 1 =>
                    simp only [List.getElem?_cons_succ] at hi
                    exact hall j v hi
      | some (.bytes b0) =>
          rw [processStrItems] at h
          cases hdec : env.utf8Decode b0 with
          | none => rw [hdec] at h; exact absurd h (by simp)
          | some s0 =>
              rw [hdec] at h
              cases hrec : processStrItems env re rep rest with
              | error e => rw [hrec] at h; exact absurd h (by simp)
              | ok out1 =>
                  rw [hrec] at h
                  simp only [Except.ok.injEq] at h
                  subst h
                  obtain ⟨hlen, hnone, hstr, hbytes, hall⟩ := ih out1 hrec
                  refine ⟨by simp [hlen], ?_, ?_, ?_, ?_⟩
                  · intro i hi
                    match i with
                    | 0 => simp at hi
                    | j + 1 =>
                        simp only [List.getElem?_cons_succ] at hi ⊢
                        exact hnone j hi
                  · intro i s hi
                    match i with
                    | 0 => simp at hi
                    | j + 1 =>
                        simp only [List.getElem?_cons_succ] at hi ⊢
                        exact hstr j s hi
                  · intro i b hi
                    match i with
                    | 0 =>
                        simp only [List.getElem?_cons_zero, Option.some.injEq,
                          PyVal.bytes.injEq] at hi
                        subst hi
                        exact ⟨s0, hdec, by simp⟩
                    | j + 1 =>
                        simp only [List.getElem?_cons_succ] at hi ⊢
                        exact hbytes j b hi
                  · intro i v hi
                    match i with
                    | 0 =>
                        simp only [List.getElem?_cons_zero, Option.some.injEq] at hi
                        exact ⟨_, hi.symm⟩
                    | j + 1 =>
                        simp only [List.getElem?_cons_succ] at hi
                        exact hall j v hi

/-- C6: if the supplied pattern is invalid — its bytes are not valid
UTF-8, or it does not compile in either mode — then the call fails
with the pattern error, and the result is the same for every input
item list as for the empty one: no item is read, transformed, or
included in a partial result. -/
theorem invalid_pattern_fails_fast (env : RegexEnv) (data : List (Option PyVal)) :
    (∀ pb rs, env.utf8Decode pb = none →
        regex_replace_rust env data (.bytes pb) (.str rs)
            = .error "Invalid UTF-8 in pattern" ∧
        regex_replace_rust env data (.bytes pb) (.str rs)
            = regex_replace_rust env [] (.bytes pb) (.str rs)) ∧
    (∀ pb ps rs, env.utf8Decode pb = some ps → env.compileBytes ps = none →
        regex_replace_rust env data (.bytes pb) (.str rs)
            = .error "Invalid regex pattern" ∧
        regex_replace_rust env data (.bytes pb) (.str rs)
            = regex_replace_rust env [] (.bytes pb) (.str rs)) ∧
    (∀ ps rs, env.compileStr ps = none →
        regex_replace_rust env data (.str ps) (.str rs)
            = .error "Invalid regex pattern" ∧
        regex_replace_rust env data (.str ps) (.str rs)
            = regex_replace_rust env [] (.str ps) (.str rs)) := by
  refine ⟨?_, ?_, ?_⟩
  · intro pb rs hdec
    constructor <;> simp [regex_replace_rust, resolveBytesReplacement, hdec]
  · intro pb ps rs hdec hcomp
    constructor <;>
      simp [regex_replace_rust, resolveBytesReplacement, hdec, hcomp]
  · intro ps rs hcomp
    constructor <;> simp [regex_replace_rust, hcomp]

/-- An environment whose compilers reject every pattern, used to
exercise the invalid-pattern path on a concrete input. -/
def failEnv : RegexEnv where
  compileStr := fun _ => none
  compileBytes := fun _ => none
  utf8Decode := fun _ => none
  utf8Encode := fun s => s.data.map Char.toNat

/-- Witness for C6: with a compiler that rejects the pattern, a
one-item list yields the pattern error in string mode, and a pattern
of invalid UTF-8 bytes yields the UTF-8 pattern error in bytes mode. -/
theorem invalid_pattern_fails_fast_witness :
    regex_replace_rust failEnv [some (PyVal.str "a")] (PyVal.str "[") (PyVal.str "w")
        = .error "Invalid regex pattern" ∧
    regex_replace_rust failEnv [some (PyVal.bytes [97])] (PyVal.bytes [255]) (PyVal.str "w")
        = .error "Invalid UTF-8 in pattern" := by
  constructor
  · exact ((invalid_pattern_fails_fast failEnv [some (PyVal.str "a")]).2.2 "[" "w" rfl).1
  · exact ((invalid_pattern_fails_fast failEnv [some (PyVal.bytes [97])]).1 [255] "w" rfl).1

/-- C4 (amended): whenever `regex_replace_rust` succeeds, the output
list has the length of the input list, absent items are absent at the
same index, and every present item the pattern does not match keeps
its content — a byte item is returned unchanged, while a text item is
returned as the byte sequence of its unchanged text. -/
theorem regex_replace_shape (env : RegexEnv) (hl : env.lawful)
    (data : List (Option PyVal)) (pattern replacement : PyVal)
    (out : List (Option PyVal))
    (h : regex_replace_rust env data pattern replacement = .ok out) :
    out.length = data.length ∧
    (∀ i : Nat, data[i]? = some none → out[i]? = some none) ∧
    (∀ pb ps re, pattern = PyVal.bytes pb → env.utf8Decode pb = some ps →
        env.compileBytes ps = some re →
        ∀ (i : Nat) (b : List Nat), data[i]? = some (some (PyVal.bytes b)) →
          re.isMatch b = false → out[i]? = some (some (PyVal.bytes b))) ∧
    (∀ ps re, pattern = PyVal.str ps → env.compileStr ps = some re →
        (∀ (i : Nat) (s : String), data[i]? = some (some (PyVal.str s)) →
            re.isMatch s = false →
            out[i]? = some (some (PyVal.bytes (env.utf8Encode s)))) ∧
        (∀ (i : Nat) (b : List Nat) (s : String),
            data[i]? = some (some (PyVal.bytes b)) → env.utf8Decode b = some s →
            re.isMatch s = false → out[i]? = some (some (PyVal.bytes b)))) := by
  obtain ⟨hlawStr, hlawBytes, hlawEnc⟩ := hl
  match pattern with
  | .bytes pb =>
      cases hrep : resolveBytesReplacement env replacement with
      | error e => simp [regex_replace_rust, hrep] at h
      | ok repStr =>
          cases hdec : env.utf8Decode pb with
          | none => simp [regex_replace_rust, hrep, hdec] at h
          | some ps =>
              cases hcomp : env.compileBytes ps with
              | none => simp [regex_replace_rust, hrep, hdec, hcomp] at h
              | some re =>
                  simp only [regex_replace_rust, hrep, hdec, hcomp] at h
                  obtain ⟨hlen, hnone, hbytes⟩ := processBytesItems_spec re _ data out h
                  refine ⟨hlen, hnone, ?_, ?_⟩
                  · intro pb1 ps1 re1 hpat hdec1 hcomp1 i b hi hm
                    have hpb : pb = pb1 := by simpa using hpat
                    subst hpb
                    rw [hdec] at hdec1
                    have hps : ps = ps1 := by simpa using hdec1
                    subst hps
                    rw [hcomp] at hcomp1
                    have hre : re = re1 := by simpa using hcomp1
                    subst hre
                    have hx := hbytes i b hi
                    rwa [hlawBytes ps re hcomp b _ hm] at hx
                  · intro ps1 re1 hpat
                    exact absurd hpat (by simp)
  | .str ps0 =>
      match replacement with
      | .bytes rb => simp [regex_replace_rust] at h
      | .str rs =>
          cases hcomp : env.compileStr ps0 with
          | none => simp [regex_replace_rust, hcomp] at h
          | some re =>
              simp only [regex_replace_rust, hcomp] at h
              obtain ⟨hlen, hnone, hstr, hbytes, hall⟩ :=
                processStrItems_spec env re _ data out h
              refine ⟨hlen, hnone, ?_, ?_⟩
              · intro pb1 ps1 re1 hpat
                exact absurd hpat (by simp)
              · intro ps1 re1 hpat hcomp1
                have hps : ps0 = ps1 := by simpa using hpat
                subst hps
                rw [hcomp] at hcomp1
                have hre : re = re1 := by simpa using hcomp1
                subst hre
                constructor
                · intro i s hi hm
                  have hx := hstr i s hi
                  rwa [hlawStr ps0 re hcomp s _ hm] at hx
                · intro i b s hi hdec hm
                  obtain ⟨s1, hdec1, hout⟩ := hbytes i b hi
                  rw [hdec] at hdec1
                  have hs : s = s1 := by simpa using hdec1
                  subst hs
                  rw [hlawStr ps0 re hcomp s _ hm] at hout
                  rwa [hlawEnc b s hdec] at hout

/-- An environment whose compiled regex matches exactly the pattern
text itself and replaces it whole; decoding always fails, encoding
maps every character to its code point. -/
def litEnv : RegexEnv where
  compileStr := fun p =>
    some { isMatch := fun hay => hay == p,
           replaceAll := fun hay r => if hay == p then r else hay }
  compileBytes := fun p =>
    some { isMatch := fun hay => hay == p.data.map Char.toNat,
           replaceAll := fun hay r => if hay == p.data.map Char.toNat then r else hay }
  utf8Decode := fun _ => none
  utf8Encode := fun s => s.data.map Char.toNat

theorem litEnv_lawful : litEnv.lawful := by
  refine ⟨?_, ?_, ?_⟩
  · intro p re hre hay r hm
    have : re = { isMatch := fun hay => hay == p,
                  replaceAll := fun hay r => if hay == p then r else hay } := by
      simpa [litEnv] using hre.symm
    subst this
    simp only at hm
    simp [hm]
  · intro p re hre hay r hm
    have : re = { isMatch := fun hay => hay == p.data.map Char.toNat,
                  replaceAll := fun hay r =>
                    if hay == p.data.map Char.toNat then r else hay } := by
      simpa [litEnv] using hre.symm
    subst this
    simp only at hm
    simp [hm]
  · intro b s hb
    simp [litEnv] at hb

/-- Counterexample for C4 as stated: in string mode the pattern `zz`
does not match the present text item `x` — the environment's regex
never matches anything but its own pattern text and its replacement is
the identity on non-matches — yet the item comes back as the byte
sequence `[120]`, not as the unchanged text value `x`. -/
theorem regex_replace_unchanged_cex :
    regex_replace_rust litEnv [some (PyVal.str "x")] (PyVal.str "zz") (PyVal.str "w")
        = .ok [some (PyVal.bytes [120])] ∧
    ((litEnv.compileStr "zz").all fun re => !(re.isMatch "x")) = true ∧
    PyVal.bytes [120] ≠ PyVal.str "x" := by
  refine ⟨rfl, rfl, by decide⟩

/-- Witness for C4 (amended): on the two-item list `[text a, absent]`
with the non-matching pattern `zz`, the successful call keeps the
length; the first conclusion of the shape theorem applies at this
concrete input. -/
theorem regex_replace_shape_witness :
    ([some (PyVal.bytes [97]), none] : List (Option PyVal)).length
        = ([some (PyVal.str "a"), none] : List (Option PyVal)).length :=
  (regex_replace_shape litEnv litEnv_lawful [some (PyVal.str "a"), none]
    (PyVal.str "zz") (PyVal.str "w") [some (PyVal.bytes [97]), none] rfl).1

/-- C10: in string mode, whenever the call succeeds, every present
output item is a bytes value — never a text value — regardless of what
the corresponding input item was and of whether the pattern matched. -/
theorem string_mode_returns_bytes (env : RegexEnv)
    (data : List (Option PyVal)) (ps : String) (replacement : PyVal)
    (out : List (Option PyVal))
    (h : regex_replace_rust env data (PyVal.str ps) replacement = .ok out) :
    ∀ (i : Nat) (v : PyVal), out[i]? = some (some v) → ∃ b, v = PyVal.bytes b := by
  match replacement with
  | .bytes rb => simp [regex_replace_rust] at h
  | .str rs =>
      cases hcomp : env.compileStr ps with
      | none => simp [regex_replace_rust, hcomp] at h
      | some re =>
          simp only [regex_replace_rust, hcomp] at h
          exact (processStrItems_spec env re _ data out h).2.2.2.2

/-- Witness for C10: the text item `a`, unmatched in string mode,
comes back as a bytes value. -/
theorem string_mode_returns_bytes_witness :
    ∃ b, PyVal.bytes [97] = PyVal.bytes b :=
  string_mode_returns_bytes litEnv [some (PyVal.str "a")] "zz" (PyVal.str "w")
    [some (PyVal.bytes [97])] rfl 0 (PyVal.bytes [97]) rfl

end Opteryx
